import Mathlib

/-!
Shallow embedding of the rule-resolution and schedule-computation engine of
the Santander revolving-credit calculator (the `RevolvingCalc` class and its
module-level helpers).  Numbers are modelled as exact rationals (`ℚ`); the
JavaScript source computes with IEEE doubles, and the `toFixed(2)` /
`Math.round` rounding steps are modelled as exact rounding on `ℚ`
(`round x = ⌊x + 1/2⌋`, which is what both `Math.round` and `toFixed`
perform on the magnitudes involved).  DOM work, CSS, i18n label tables and
fetch plumbing are outside the model; every function below is transcribed
from the corresponding source function, keeping its name.
-/

namespace SantanderCalc

/-- The `months` field of a band, as the JSON value the code receives.
`num n` is a JSON number; `final` is the string `"final"` (the code's two
tests - strict equality in `expandBands` and
`String(m).toLowerCase() === "final"` in `renderSchedule` - agree
observably on every such value, since `Number("final")` is `NaN` and so
contributes zero repetitions either way); `numStr n` is a numeric string
whose `Number(·)` coercion is `n` (`typeof` is `"string"`); `junk` is any
other value, whose `Number(·)` coercion is `NaN`. -/
inductive MonthsField where
  | num (n : ℚ)
  | final
  | numStr (n : ℚ)
  | junk
deriving DecidableEq, Repr

/-- `Number(months) || 0` - the numeric coercion applied in `expandBands`
(`NaN` is falsy, so `junk` and `"final"` coerce to `0`). -/
def monthsNumber : MonthsField → ℚ
  | .num n => n
  | .numStr n => n
  | .final => 0
  | .junk => 0

/-- `typeof months === "number"` - the test used by the fallback scan in
`renderSchedule`. -/
def MonthsField.isNumericType : MonthsField → Bool
  | .num _ => true
  | _ => false

/-- One element of a `bands` array: `{ months, amount }`.  The `amount`
field is modelled as a number (the rule documents carry numbers there). -/
structure Band where
  months : MonthsField
  amount : ℚ
deriving DecidableEq, Repr

/-- How many times the JS loop `for (let i = 0; i < q; i++)` executes. -/
def jsLoopCount (q : ℚ) : ℕ := if q ≤ 0 then 0 else (⌈q⌉).toNat

/-- The entries one band contributes in `expandBands`: a `"final"` band is
skipped by the `continue`; otherwise the amount is pushed
`Number(months) || 0` times. -/
def bandEntries (b : Band) : List ℚ :=
  if b.months = MonthsField.final then []
  else List.replicate (jsLoopCount (monthsNumber b.months)) b.amount

/-- `expandBands(bands)` - `bands || []` is modelled by the `Option`. -/
def expandBands (bands : Option (List Band)) : List ℚ :=
  ((bands.getD []).map bandEntries).flatten

/-- The entries one `[count, val]` RLE pair contributes in `expandRLE`. -/
def rleEntries (p : ℚ × ℚ) : List ℚ :=
  List.replicate (jsLoopCount p.1) p.2

/-- `expandRLE(rle)` - `rle || []` is modelled by the `Option`. -/
def expandRLE (rle : Option (List (ℚ × ℚ))) : List ℚ :=
  ((rle.getD []).map rleEntries).flatten

/-- A tier's `range`: `min`/`max` fields.  `none` models an absent field
or the non-finite value `Infinity` (the two are observationally equal in
this code: selection applies `?? ±Infinity`, the legal builder tests
`Number.isFinite`, and the sort key applies `?? 0` only to `min`, which is
never `Infinity` in the data this code constructs). -/
structure Range where
  min : Option ℚ
  max : Option ℚ
deriving DecidableEq, Repr

/-- A legacy column: `{ purchase, rle }`. -/
structure Column where
  purchase : ℚ
  rle : Option (List (ℚ × ℚ))
deriving DecidableEq, Repr

/-- The `meta` block copied verbatim by the normalizer. -/
structure Meta where
  apr_nominal : Option ℚ
  apr_representative : Option ℚ
  open_fee_monthly : Option ℚ
  valid_date : Option String
deriving DecidableEq, Repr

/-- A normalized tier (a.k.a. tab).  The per-language `label` table is
presentation-only (fixed i18n strings) and is elided from the model. -/
structure Tab where
  id : String
  range : Option Range
  bands : Option (List Band)
  columns : Option (List Column)
  legal : String
  meta : Meta
deriving DecidableEq, Repr

/-- A default tab to build concrete examples from. -/
def blankTab : Tab :=
  { id := "", range := none, bands := none, columns := none, legal := ""
    meta := { apr_nominal := none, apr_representative := none
              open_fee_monthly := none, valid_date := none } }

/-- `+x.toFixed(2)` / the 2-decimal rounding used by the top-up loop:
round to the nearest multiple of 1/100, ties towards +∞ (`round` in
Mathlib is `⌊x + 1/2⌋`, matching the ECMAScript `toFixed` tie rule). -/
def round2 (q : ℚ) : ℚ := (round (100 * q) : ℤ) / 100

/-- `q` is representable with two fractional digits. -/
def Is2Dec (q : ℚ) : Prop := ∃ m : ℤ, q = (m : ℚ) / 100

/-- The fallback per-month amount for the open-ended extension: scan
`bands[len-2] .. bands[0]` for the first entry with `typeof months ===
"number"` and take `Number(amount) || 25`; default `25`. -/
def fallbackFrom (bands : List Band) : ℚ :=
  match bands.dropLast.reverse.find? (fun b => b.months.isNumericType) with
  | some b => if b.amount = 0 then 25 else b.amount
  | none => 25

/-- The `while`/`if` tail of `renderSchedule`, with explicit fuel (the JS
loop is partial: it diverges when the fallback amount is below 1/100, see
the termination theorem):
`while (rest - lastStepAmount > 0.009) { push(lastStepAmount); rest = +(rest - lastStepAmount).toFixed(2); }
 if (rest > 0.009) push(+rest.toFixed(2));`. -/
def topUpGo (fallback : ℚ) : ℕ → ℚ → List ℚ
  | 0, _ => []
  | fuel + 1, rest =>
    if rest - fallback > 9/1000 then
      fallback :: topUpGo fallback fuel (round2 (rest - fallback))
    else if rest > 9/1000 then [round2 rest] else []

/-- Fuel sufficient for `topUpGo` whenever the loop terminates at all
(proved below: when the fallback is at least 1/100 the rounded deficit
falls by at least 1/100 per iteration). -/
def topUpFuel (rest : ℚ) : ℕ := (⌈100 * rest⌉).toNat + 1

/-- The extension list the code appends after the explicit bands. -/
def srTopUp (fallback rest : ℚ) : List ℚ :=
  topUpGo fallback (topUpFuel rest) rest

/-- `pickColumn(tab)`: copy-sort the columns ascending by `purchase`,
take the first with `purchase >= 0`, else the last of the sorted list
(`undefined` - `none` - on an empty list). -/
def colLE (a b : Column) : Prop := a.purchase ≤ b.purchase

instance : DecidableRel colLE := fun a b => inferInstanceAs (Decidable (a.purchase ≤ b.purchase))

instance : IsTotal Column colLE := ⟨fun a b => le_total a.purchase b.purchase⟩

instance : IsTrans Column colLE := ⟨fun _ _ _ h h' => le_trans h h'⟩

def pickColumn (tab : Tab) : Option Column :=
  let cols := (tab.columns.getD []).insertionSort colLE
  match cols.find? (fun c => 0 ≤ c.purchase) with
  | some c => some c
  | none => cols.getLast?

/-- `Array.isArray(tab.bands) && tab.bands.length` - the bands-path
guard of `renderSchedule`. -/
def hasBands (tab : Tab) : Bool :=
  match tab.bands with
  | some bs => !bs.isEmpty
  | none => false

/-- The schedule before the final-band extension: bands when present and
non-empty, else the picked column's RLE when `tab.columns?.length`. -/
def baseSchedule (tab : Tab) : List ℚ :=
  if hasBands tab then expandBands tab.bands
  else
    match tab.columns with
    | some cols =>
      if cols.isEmpty then []
      else
        match pickColumn tab with
        | some c => expandRLE c.rle
        | none => []
    | none => []

/-- `hasFinal`: bands present, non-empty, and the last band's months
field is the final sentinel. -/
def hasFinal (tab : Tab) : Bool :=
  match tab.bands with
  | some bs =>
    !bs.isEmpty &&
      (match bs.getLast? with
       | some b => decide (b.months = MonthsField.final)
       | none => false)
  | none => false

/-- The schedule-computation core of `renderSchedule(total, tabIdx)`
(the DOM updates that follow are elided). -/
def scheduleOf (tab : Tab) (total : ℚ) : List ℚ :=
  let schedule := baseSchedule tab
  let sumPaid := schedule.sum
  if hasFinal tab ∧ total > sumPaid then
    let fallback := fallbackFrom (tab.bands.getD [])
    let rest := round2 (total - sumPaid)
    schedule ++ srTopUp fallback rest
  else schedule

/-! ### `formatLegalText` - the `[[...]]` inline-emphasis expansion

The regex `/\[\[(.*?)\]\]/g` replaces, left to right, each `[[`,
followed by the shortest run of non-line-terminator characters, followed
by `]]`, with the bold `<span>` wrapper around the enclosed run. -/

/-- The opening wrapper written by the replacement. -/
def spanOpen : String :=
  "<span style=\"font-weight: bold; font-size: 16px; line-height: 19px\">"

/-- The closing wrapper written by the replacement. -/
def spanClose : String := "</span>"

/-- A character matched by `.` in a JavaScript regex without the `s`
flag: anything but a line terminator. -/
def isRegexDot (c : Char) : Bool :=
  c ≠ '\n' && c ≠ '\r' && c ≠ '\u2028' && c ≠ '\u2029'

/-- Scan for the earliest `]]` (the non-greedy `(.*?)\]\]`): returns the
content before it and the remainder after it, or `none` when no `]]`
occurs before a line terminator or the end. -/
def findClose : List Char → Option (List Char × List Char)
  | ']' :: ']' :: rest => some ([], rest)
  | c :: rest =>
    if isRegexDot c then (findClose rest).map (fun p => (c :: p.1, p.2))
    else none
  | [] => none

/-- One left-to-right replacement pass.  The `ℕ` argument is structural
fuel; `fuel = input length` always suffices because every step consumes
at least one character (and when fuel runs out the remaining input is
necessarily empty). -/
def fmtAux : ℕ → List Char → List Char
  | 0, l => l
  | _ + 1, [] => []
  | fuel + 1, '[' :: '[' :: rest =>
    match findClose rest with
    | some (content, rest2) =>
      spanOpen.data ++ content ++ spanClose.data ++ fmtAux fuel rest2
    | none => '[' :: fmtAux fuel ('[' :: rest)
  | fuel + 1, c :: rest => c :: fmtAux fuel rest

/-- `formatLegalText(text)`: empty for a falsy argument, otherwise the
global `[[...]]` replacement. -/
def formatLegalText (text : String) : String :=
  if text = "" then "" else String.mk (fmtAux text.data.length text.data)

/-! ### Rule Normalizer (`loadNewRulesOrLegacy`) -/

/-- The `legal_lines` field of a rule document: absent, a single string,
or an array of strings. -/
inductive LegalLines where
  | absent
  | str (s : String)
  | arr (ls : List String)
deriving DecidableEq, Repr

/-- `Array.isArray(legal_lines) ? legal_lines.join(" ") : legal_lines || ""`. -/
def joinLegalLines : LegalLines → String
  | .absent => ""
  | .str s => s
  | .arr ls => String.intercalate " " ls

/-- One per-tier rule document as fetched (already JSON-parsed). -/
structure PerTierDoc where
  id : Option String
  range : Option Range
  min : Option ℚ
  max : Option ℚ
  bands : Option (List Band)
  legal_lines : LegalLines
  apr_nominal : Option ℚ
  apr_representative : Option ℚ
  open_fee_monthly : Option ℚ
  valid_date : Option String
deriving DecidableEq, Repr

/-- `rule.id || ["A","B","C"][idx] || T(idx+1)` - the positional part. -/
def posDefaultId (idx : ℕ) : String :=
  match idx with
  | 0 => "A"
  | 1 => "B"
  | 2 => "C"
  | _ => "T" ++ toString (idx + 1)

/-- `rule.range || { min: rule.min ?? 0, max: rule.max ?? Infinity }`
(`Infinity` is the `none` upper bound in this model). -/
def normRange (d : PerTierDoc) : Range :=
  match d.range with
  | some r => r
  | none => { min := some (d.min.getD 0), max := d.max }

/-- The normalization of one fetched per-tier document at position `idx`
in the success list (the per-language `label` table, fixed i18n text, is
elided). -/
def normalizeTab (useI18nLegal : Bool) (idx : ℕ) (d : PerTierDoc) : Tab :=
  { id :=
      match d.id with
      | some s => if s = "" then posDefaultId idx else s
      | none => posDefaultId idx
    range := some (normRange d)
    bands := some (d.bands.getD [])
    columns := none
    legal :=
      if useI18nLegal then ""
      else formatLegalText (joinLegalLines d.legal_lines)
    meta :=
      { apr_nominal := d.apr_nominal
        apr_representative := d.apr_representative
        open_fee_monthly := d.open_fee_monthly
        valid_date := d.valid_date } }

/-- The normalized rule set: `{ tabs }`. -/
structure RuleSet where
  tabs : List Tab
deriving DecidableEq, Repr

/-- A fatal rule-load failure: a non-ok legacy response or an unparsable
legacy body. -/
inductive LoadError where
  | http (status : ℕ)
  | parse
deriving DecidableEq, Repr

/-- The sort relation of the normalizer: ascending by
`(range?.min ?? 0)`. -/
def tabMinKey (t : Tab) : ℚ := (t.range.bind Range.min).getD 0

def tabLE (a b : Tab) : Prop := tabMinKey a ≤ tabMinKey b

instance : DecidableRel tabLE := fun a b =>
  inferInstanceAs (Decidable (tabMinKey a ≤ tabMinKey b))

instance : IsTotal Tab tabLE := ⟨fun a b => le_total (tabMinKey a) (tabMinKey b)⟩

instance : IsTrans Tab tabLE := ⟨fun _ _ _ h h' => le_trans h h'⟩

/-- `loadNewRulesOrLegacy()`.  `fetched` holds the settled outcome of the
three per-tier fetches in file order (`none` models a rejected promise, a
non-ok response, or an unparsable body - all swallowed); `legacy` is the
outcome of the legacy fetch, demanded only when no per-tier document was
obtained, whose failure is fatal. -/
def loadNewRulesOrLegacy (useI18nLegal : Bool)
    (fetched : List (Option PerTierDoc))
    (legacy : Except LoadError RuleSet) : Except LoadError RuleSet :=
  let okResponses := fetched.reduceOption
  if 1 ≤ okResponses.length then
    .ok ⟨(okResponses.mapIdx fun idx d => normalizeTab useI18nLegal idx d).insertionSort tabLE⟩
  else legacy

/-! ### Range Selector (`open`) -/

/-- `total >= (t.range?.min ?? -Infinity) && total <= (t.range?.max ?? Infinity)`. -/
def containsTotal (t : Tab) (total : ℚ) : Bool :=
  (t.range.bind Range.min).all (fun lo => decide (lo ≤ total)) &&
    (t.range.bind Range.max).all (fun hi => decide (total ≤ hi))

/-- `tabs.findIndex(...)`; `none` models the `-1` result. -/
def findTier (tabs : List Tab) (total : ℚ) : Option ℕ :=
  tabs.findIdx? (fun t => containsTotal t total)

/-- The four observable outcomes of the `open()` flow. -/
inductive OpenOutcome where
  | emptyCart
  | loadFailed
  | noMatch
  | selected (idx : ℕ)
deriving DecidableEq, Repr

/-- The branch structure of `open()`: empty-cart guard, rules load (the
`catch` path), tier selection (`activeTabIdx < 0` renders the "too high"
message), and the selected index. -/
def openFlow (total : ℚ) (rules : Except LoadError RuleSet) : OpenOutcome :=
  if total ≤ 0 then .emptyCart
  else
    match rules with
    | .error _ => .loadFailed
    | .ok rs =>
      match findTier rs.tabs total with
      | some i => .selected i
      | none => .noMatch

/-! ### Legal Text Builder (`buildLegalFromTab`) -/

/-- The outcome of `buildLegalFromTab`, abstracting the final string: the
pass-through branch returns `tab.legal` verbatim; a synthesized branch
records which `legalTpl` template was dispatched to and the numeric range
arguments handed to it (the locale formatting of currency, percentages
and dates - `Intl`, elided - only turns these into display strings). -/
inductive LegalOut where
  | passthrough (legal : String)
  | between (lo hi : ℚ)
  | single (hi : ℚ)
  | minMore (displayMin : ℤ)
  | empty
deriving DecidableEq, Repr

/-- `x || d` on an integer (`Math.round(range.min) || 0`). -/
def jsOrZ (z d : ℤ) : ℤ := if z = 0 then d else z

/-- `buildLegalFromTab(tab)`.  `Number.isFinite(range.min)` holds exactly
for the `some` values of the model (absent fields and `Infinity` are both
non-finite), so the dispatch matches on the two bounds. -/
def buildLegalFromTab (useI18nLegal : Bool) (tab : Tab) : LegalOut :=
  if useI18nLegal = false ∧ tab.legal ≠ "" then .passthrough tab.legal
  else
    match tab.range.bind Range.min, tab.range.bind Range.max with
    | some mn, some mx => .between mn mx
    | none, some mx => .single mx
    | some mn, none => .minMore (jsOrZ (round mn) 0 + 1)
    | none, none => .empty

/-! ### Helper lemmas about `round2` and the top-up loop -/

theorem is2Dec_round2 (q : ℚ) : Is2Dec (round2 q) := ⟨round (100 * q), rfl⟩

theorem hundred_mul_div (m : ℤ) : (100 : ℚ) * ((m : ℚ) / 100) = (m : ℚ) := by
  field_simp

theorem round2_of_is2Dec {q : ℚ} (h : Is2Dec q) : round2 q = q := by
  obtain ⟨m, rfl⟩ := h
  rw [round2, hundred_mul_div, round_intCast]

/-- One loop iteration lowers the 2-decimal deficit by at least `1/100`
whenever the fallback amount is at least `1/100`. -/
theorem round2_drop {f r : ℚ} (hf : 1/100 ≤ f) (hr : Is2Dec r) :
    round2 (r - f) ≤ r - 1/100 := by
  obtain ⟨m, rfl⟩ := hr
  rw [round2]
  have h1 : (100 : ℚ) * ((m : ℚ) / 100 - f) = -(100 * f) + (m : ℚ) := by
    field_simp
    ring
  rw [h1, round_add_int]
  have h2 : round (-(100 * f)) ≤ -1 := by
    rw [round_eq]
    have hlt : -(100 * f) + 1 / 2 < (((-1 : ℤ) + 1 : ℤ) : ℚ) := by
      push_cast
      linarith
    have := Int.floor_lt.mpr hlt
    omega
  have h2q : ((round (-(100 * f)) : ℤ) : ℚ) ≤ -1 := by exact_mod_cast h2
  have hle : ((round (-(100 * f)) + m : ℤ) : ℚ) ≤ (m : ℚ) - 1 := by
    push_cast
    linarith
  rw [div_le_iff₀ (by norm_num : (0:ℚ) < 100)]
  calc ((round (-(100 * f)) + m : ℤ) : ℚ) ≤ (m : ℚ) - 1 := hle
    _ = ((m : ℚ) / 100 - 1/100) * 100 := by ring

/-- While the loop guard holds, the next rounded deficit stays at least
`1/100`. -/
theorem round2_ge_of_guard {f r : ℚ} (hg : 9/1000 < r - f) :
    1/100 ≤ round2 (r - f) := by
  rw [round2]
  have h1 : (1 : ℤ) ≤ round (100 * (r - f)) := by
    rw [round_eq, Int.le_floor]
    push_cast
    linarith
  rw [le_div_iff₀ (by norm_num : (0:ℚ) < 100)]
  calc (1 : ℚ) / 100 * 100 = ((1 : ℤ) : ℚ) := by norm_num
    _ ≤ ((round (100 * (r - f)) : ℤ) : ℚ) := by exact_mod_cast h1

/-- The loop's natural measure: `(⌈100 * rest⌉).toNat`. -/
theorem topUp_measure_lt {f r : ℚ} (hf : 1/100 ≤ f) (hr : Is2Dec r)
    (hg : 9/1000 < r - f) :
    (⌈100 * round2 (r - f)⌉).toNat < (⌈100 * r⌉).toNat := by
  have hd : round2 (r - f) ≤ r - 1/100 := round2_drop hf hr
  have hp : 1/100 ≤ round2 (r - f) := round2_ge_of_guard hg
  set k : ℤ := round (100 * (r - f)) with hk
  have h2 : (100 : ℚ) * round2 (r - f) = (k : ℚ) := by
    rw [round2, hundred_mul_div]
  have hceil : ⌈(100 : ℚ) * round2 (r - f)⌉ = k := by
    rw [h2, Int.ceil_intCast]
  have hk1 : (1 : ℤ) ≤ k := by
    have : (1 : ℚ) ≤ (k : ℚ) := by
      rw [← h2]
      linarith
    exact_mod_cast this
  have hklt : k < ⌈(100 : ℚ) * r⌉ := by
    have hle : (k : ℚ) ≤ 100 * r - 100 * (1/100) := by
      rw [← h2]
      linarith
    have hle2 : (k : ℚ) ≤ ((⌈(100 : ℚ) * r⌉ : ℤ) : ℚ) - 1 := by
      have := Int.le_ceil ((100 : ℚ) * r)
      push_cast at hle ⊢
      linarith
    have : (k : ℚ) < ((⌈(100 : ℚ) * r⌉ : ℤ) : ℚ) := by linarith
    exact_mod_cast this
  rw [hceil]
  omega

/-- Any two sufficiently large fuels give the same loop result: the fueled
model of the `while` loop is fuel-independent past the measure. -/
theorem topUpGo_stable {f : ℚ} (hf : 1/100 ≤ f) :
    ∀ n : ℕ, ∀ r : ℚ, Is2Dec r → (⌈100 * r⌉).toNat ≤ n →
      ∀ f1 f2 : ℕ, n < f1 → n < f2 → topUpGo f f1 r = topUpGo f f2 r := by
  intro n
  induction n with
  | zero =>
    intro r hr hm f1 f2 h1 h2
    obtain ⟨a, rfl⟩ : ∃ a, f1 = a + 1 := ⟨f1 - 1, by omega⟩
    obtain ⟨b, rfl⟩ : ∃ b, f2 = b + 1 := ⟨f2 - 1, by omega⟩
    by_cases hg : 9/1000 < r - f
    · exfalso
      have hlt : (1 : ℤ) < ⌈(100 : ℚ) * r⌉ := by
        rw [Int.lt_ceil]
        push_cast
        linarith
      omega
    · simp [topUpGo, hg]
  | succ n ih =>
    intro r hr hm f1 f2 h1 h2
    obtain ⟨a, rfl⟩ : ∃ a, f1 = a + 1 := ⟨f1 - 1, by omega⟩
    obtain ⟨b, rfl⟩ : ∃ b, f2 = b + 1 := ⟨f2 - 1, by omega⟩
    by_cases hg : 9/1000 < r - f
    · simp only [topUpGo, if_pos hg]
      have hmeas := topUp_measure_lt hf hr hg
      have := ih (round2 (r - f)) (is2Dec_round2 _) (by omega) a b (by omega) (by omega)
      rw [this]
    · simp [topUpGo, hg]

/-- Unfolding of `srTopUp` when the loop guard holds (requires the
terminating regime). -/
theorem srTopUp_loop {f r : ℚ} (hf : 1/100 ≤ f) (hr : Is2Dec r)
    (hg : 9/1000 < r - f) :
    srTopUp f r = f :: srTopUp f (round2 (r - f)) := by
  rw [srTopUp, srTopUp, topUpFuel, topUpFuel]
  have e1 : topUpGo f ((⌈(100:ℚ) * r⌉).toNat + 1) r
      = f :: topUpGo f ((⌈(100:ℚ) * r⌉).toNat) (round2 (r - f)) := by
    rw [topUpGo]
    simp [hg]
  rw [e1]
  have hmeas := topUp_measure_lt hf hr hg
  have := topUpGo_stable hf ((⌈(100:ℚ) * round2 (r - f)⌉).toNat)
    (round2 (r - f)) (is2Dec_round2 _) (le_refl _)
    ((⌈(100:ℚ) * r⌉).toNat) ((⌈(100:ℚ) * round2 (r - f)⌉).toNat + 1)
    (by omega) (by omega)
  rw [this]

/-- Unfolding of `srTopUp` when the loop guard fails: the trailing
`if (rest > 0.009)` push. -/
theorem srTopUp_stop {f r : ℚ} (hg : ¬ 9/1000 < r - f) :
    srTopUp f r = if 9/1000 < r then [round2 r] else [] := by
  rw [srTopUp, topUpFuel, topUpGo]
  simp [hg]

/-! ### Structural lemmas about `renderSchedule` -/

theorem baseSchedule_of_bands {tab : Tab} {bs : List Band}
    (h : tab.bands = some bs) (hne : bs ≠ []) :
    baseSchedule tab = expandBands (some bs) := by
  have : hasBands tab = true := by
    simp [hasBands, h, List.isEmpty_iff, hne]
  rw [baseSchedule, if_pos this, h]

theorem hasFinal_of {tab : Tab} {bs : List Band} {bl : Band}
    (h : tab.bands = some bs) (hl : bs.getLast? = some bl)
    (hf : bl.months = MonthsField.final) :
    hasFinal tab = true := by
  have hne : bs ≠ [] := by
    intro hnil
    rw [hnil] at hl
    exact Option.noConfusion hl
  simp [hasFinal, h, hl, hf, List.isEmpty_iff, hne]

/-- The example tier of the spec's final-step test cases:
`bands = [{months:2, amount:100}, {months:"final", amount:100}]`. -/
def exFinalBands : List Band := [⟨.num 2, 100⟩, ⟨.final, 100⟩]

def exFinalTab : Tab := { blankTab with bands := some exFinalBands }

/-- Modelled from the spec: the claim's extension procedure verbatim,
with its stated `0.01` thresholds ("exceeds `fallbackAmount` by more
than 0.01" for the loop, "a remaining deficit greater than 0.01" for the
final push) in place of the code's `> 0.009`; everything else matches
the code. -/
def specTopUpGo (fallback : ℚ) : ℕ → ℚ → List ℚ
  | 0, _ => []
  | fuel + 1, rest =>
    if rest - fallback > 1/100 then
      fallback :: specTopUpGo fallback fuel (round2 (rest - fallback))
    else if rest > 1/100 then [round2 rest] else []

/-- Modelled from the spec: the claim's extension at the same fuel. -/
def specSrTopUp (fallback rest : ℚ) : List ℚ :=
  specTopUpGo fallback (topUpFuel rest) rest

/-- Modelled from the spec: `renderSchedule` with the claim's thresholds. -/
def specScheduleOf (tab : Tab) (total : ℚ) : List ℚ :=
  let schedule := baseSchedule tab
  let sumPaid := schedule.sum
  if hasFinal tab ∧ total > sumPaid then
    let fallback := fallbackFrom (tab.bands.getD [])
    let rest := round2 (total - sumPaid)
    schedule ++ specSrTopUp fallback rest
  else schedule

theorem specSrTopUp_stop {f r : ℚ} (hg : ¬ 1/100 < r - f) :
    specSrTopUp f r = if 1/100 < r then [round2 r] else [] := by
  rw [specSrTopUp, topUpFuel, specTopUpGo, if_neg hg]

/-- Claim C1 counterexample: with the example bands and target `200.01`
the deficit after the explicit bands is exactly `0.01`.  The code's
`rest > 0.009` test appends that final cent, so the schedule is
`[100, 100, 0.01]`; the claim's procedure ("a remaining deficit greater
than 0.01") appends nothing, predicting `[100, 100]`. -/
theorem c1_counterexample :
    scheduleOf exFinalTab (20001/100) = [100, 100, 1/100] ∧
      specScheduleOf exFinalTab (20001/100) = [100, 100] ∧
      scheduleOf exFinalTab (20001/100) ≠ specScheduleOf exFinalTab (20001/100) := by
  have hbase : baseSchedule exFinalTab = [100, 100] := rfl
  have hfall : fallbackFrom (exFinalTab.bands.getD []) = 100 := rfl
  have hfin : hasFinal exFinalTab = true := rfl
  have h1 : scheduleOf exFinalTab (20001/100) = [100, 100, 1/100] := by
    simp only [scheduleOf, hbase, hfall, hfin]
    norm_num [List.sum_cons, List.sum_nil]
    rw [show round2 ((1:ℚ)/100) = 1/100 from round2_of_is2Dec ⟨1, by norm_num⟩]
    rw [srTopUp_stop (by norm_num)]
    norm_num
    exact round2_of_is2Dec ⟨1, by norm_num⟩
  have h2 : specScheduleOf exFinalTab (20001/100) = [100, 100] := by
    simp only [specScheduleOf, hbase, hfall, hfin]
    norm_num [List.sum_cons, List.sum_nil]
    rw [show round2 ((1:ℚ)/100) = 1/100 from round2_of_is2Dec ⟨1, by norm_num⟩]
    rw [specSrTopUp_stop (by norm_num)]
    norm_num
  refine ⟨h1, h2, ?_⟩
  rw [h1, h2]
  simp

/-- Claim C1 (amended: the code's thresholds are `> 0.009`, not
`> 0.01` - for 2-decimal deficits, "at least 0.01" - and the loop
equations hold in the terminating regime, fallback at least `0.01`):
for a tier whose band list ends in the final sentinel, nothing is
appended when the target does not exceed the expanded-band sum;
otherwise the expansion is followed by the top-up extension seeded with
the rounded deficit, whose recurrence appends the fallback while the
deficit exceeds it by more than 0.009, then one final rounded remainder
when more than 0.009 is left; the three spec examples (targets 350, 325,
150) evaluate as stated. -/
theorem c1_final_extension :
    (∀ (tab : Tab) (total : ℚ) (bs : List Band) (bl : Band),
        tab.bands = some bs → bs.getLast? = some bl →
        bl.months = MonthsField.final →
        (¬ total > (expandBands (some bs)).sum →
          scheduleOf tab total = expandBands (some bs)) ∧
        (total > (expandBands (some bs)).sum →
          scheduleOf tab total
            = expandBands (some bs)
              ++ srTopUp (fallbackFrom bs)
                  (round2 (total - (expandBands (some bs)).sum)))) ∧
    (∀ f r : ℚ, 1/100 ≤ f → Is2Dec r →
        (9/1000 < r - f → srTopUp f r = f :: srTopUp f (round2 (r - f))) ∧
        (¬ 9/1000 < r - f →
          srTopUp f r = if 9/1000 < r then [round2 r] else [])) ∧
    scheduleOf exFinalTab 350 = [100, 100, 100, 50] ∧
    scheduleOf exFinalTab 325 = [100, 100, 100, 25] ∧
    scheduleOf exFinalTab 150 = [100, 100] := by
  have hbase : baseSchedule exFinalTab = [100, 100] := rfl
  have hfall : fallbackFrom (exFinalTab.bands.getD []) = 100 := rfl
  have hfin : hasFinal exFinalTab = true := rfl
  refine ⟨?_, ?_, ?_, ?_, ?_⟩
  · intro tab total bs bl hb hl hf
    have hne : bs ≠ [] := by
      intro hnil
      rw [hnil] at hl
      exact Option.noConfusion hl
    have hb' : baseSchedule tab = expandBands (some bs) := baseSchedule_of_bands hb hne
    have hfin' : hasFinal tab = true := hasFinal_of hb hl hf
    constructor
    · intro hno
      simp only [scheduleOf, hb']
      exact if_neg (fun hcontra => hno hcontra.2)
    · intro hyes
      simp only [scheduleOf, hb', hb, Option.getD_some]
      rw [if_pos ⟨hfin', hyes⟩]
  · intro f r hf hr
    exact ⟨fun hg => srTopUp_loop hf hr hg, fun hg => srTopUp_stop hg⟩
  · simp only [scheduleOf, hbase, hfall, hfin]
    norm_num [List.sum_cons, List.sum_nil]
    rw [show round2 (150:ℚ) = 150 from round2_of_is2Dec ⟨15000, by norm_num⟩,
      srTopUp_loop (by norm_num) ⟨15000, by norm_num⟩ (by norm_num)]
    norm_num [show round2 (50:ℚ) = 50 from round2_of_is2Dec ⟨5000, by norm_num⟩]
    rw [srTopUp_stop (by norm_num)]
    norm_num [show round2 (50:ℚ) = 50 from round2_of_is2Dec ⟨5000, by norm_num⟩]
  · simp only [scheduleOf, hbase, hfall, hfin]
    norm_num [List.sum_cons, List.sum_nil]
    rw [show round2 (125:ℚ) = 125 from round2_of_is2Dec ⟨12500, by norm_num⟩,
      srTopUp_loop (by norm_num) ⟨12500, by norm_num⟩ (by norm_num)]
    norm_num [show round2 (25:ℚ) = 25 from round2_of_is2Dec ⟨2500, by norm_num⟩]
    rw [srTopUp_stop (by norm_num)]
    norm_num [show round2 (25:ℚ) = 25 from round2_of_is2Dec ⟨2500, by norm_num⟩]
  · simp only [scheduleOf, hbase, hfin]
    norm_num [List.sum_cons, List.sum_nil]

/-- Witness for the amended C1: the extension equation applied at the
example tier with target 350, all hypotheses discharged concretely. -/
theorem c1_witness :
    scheduleOf exFinalTab 350
      = expandBands (some exFinalBands)
        ++ srTopUp (fallbackFrom exFinalBands)
            (round2 (350 - (expandBands (some exFinalBands)).sum)) :=
  (c1_final_extension.1 exFinalTab 350 exFinalBands ⟨.final, 100⟩ rfl rfl rfl).2
    (by
      rw [show expandBands (some exFinalBands) = [100, 100] from rfl]
      norm_num [List.sum_cons, List.sum_nil])

/-! ### Claim C9: termination of the open-ended extension loop -/

/-- One iteration of the loop body on the running deficit:
`rest = +(rest - lastStepAmount).toFixed(2)`. -/
def topUpStep (fallback rest : ℚ) : ℚ := round2 (rest - fallback)

theorem topUp_reaches_stop {f : ℚ} (hf : 1/100 ≤ f) :
    ∀ n : ℕ, ∀ r : ℚ, Is2Dec r → (⌈(100:ℚ) * r⌉).toNat ≤ n →
      ∃ k : ℕ, ¬ 9/1000 < (topUpStep f)^[k] r - f := by
  intro n
  induction n with
  | zero =>
    intro r hr hm
    by_cases hg : 9/1000 < r - f
    · exfalso
      have hlt : (1 : ℤ) < ⌈(100 : ℚ) * r⌉ := by
        rw [Int.lt_ceil]
        push_cast
        linarith
      omega
    · exact ⟨0, by simpa using hg⟩
  | succ n ih =>
    intro r hr hm
    by_cases hg : 9/1000 < r - f
    · obtain ⟨k, hk⟩ := ih (round2 (r - f)) (is2Dec_round2 _)
        (by have := topUp_measure_lt hf hr hg; omega)
      exact ⟨k + 1, by rw [Function.iterate_succ_apply]; exact hk⟩
    · exact ⟨0, by simpa using hg⟩

/-- Claim C9: when the fallback amount is at least 0.01 the open-ended
extension terminates - the iterated deficit update reaches the stopping
condition in finitely many steps, each iteration lowers the 2-decimal
deficit by at least 0.01, and every fuel bound past `topUpFuel` produces
the same (finite) extension list. -/
theorem c9_loop_terminates :
    ∀ f r : ℚ, 1/100 ≤ f → Is2Dec r →
      (∃ k : ℕ, ¬ 9/1000 < (topUpStep f)^[k] r - f) ∧
      (∀ r2 : ℚ, Is2Dec r2 → 9/1000 < r2 - f → topUpStep f r2 ≤ r2 - 1/100) ∧
      (∀ fuel : ℕ, topUpFuel r ≤ fuel → topUpGo f fuel r = srTopUp f r) := by
  intro f r hf hr
  refine ⟨topUp_reaches_stop hf _ r hr (le_refl _), ?_, ?_⟩
  · intro r2 hr2 _
    exact round2_drop hf hr2
  · intro fuel hfuel
    rw [srTopUp]
    exact topUpGo_stable hf ((⌈(100:ℚ) * r⌉).toNat) r hr (le_refl _) fuel
      (topUpFuel r) (by simp only [topUpFuel] at hfuel; omega) (by simp [topUpFuel])

/-- Witness for C9 at fallback 25 and deficit 60. -/
theorem c9_witness :
    (∃ k : ℕ, ¬ 9/1000 < (topUpStep 25)^[k] 60 - 25) ∧
      (∀ r2 : ℚ, Is2Dec r2 → 9/1000 < r2 - 25 → topUpStep 25 r2 ≤ r2 - 1/100) ∧
      (∀ fuel : ℕ, topUpFuel 60 ≤ fuel → topUpGo 25 fuel 60 = srTopUp 25 60) :=
  c9_loop_terminates 25 60 (by norm_num) ⟨6000, by norm_num⟩

/-! ### Claim C4: band expansion -/

/-- Claim C4: band expansion produces, in band order, exactly `months`
repetitions of `amount` for each band whose months field is a positive
integer, final-sentinel bands contribute no entries at this stage, and
`[{months:3, amount:25}, {months:1, amount:12.5}]` expands to
`[25, 25, 25, 12.5]`. -/
theorem c4_expand_bands :
    (∀ bs : List Band, expandBands (some bs) = (bs.map bandEntries).flatten) ∧
    (∀ (n : ℕ) (a : ℚ), 0 < n →
      bandEntries ⟨.num (n : ℚ), a⟩ = List.replicate n a) ∧
    (∀ a : ℚ, bandEntries ⟨.final, a⟩ = []) ∧
    expandBands (some [⟨.num 3, 25⟩, ⟨.num 1, 25/2⟩]) = [25, 25, 25, 25/2] := by
  refine ⟨fun bs => rfl, ?_, fun a => rfl, rfl⟩
  intro n a hn
  rw [bandEntries, if_neg (by simp), monthsNumber]
  congr 1
  rw [jsLoopCount, if_neg (not_le.mpr (by exact_mod_cast hn)), Int.ceil_natCast]
  simp

/-- Witness for C4: the positive-integer conjunct at months 2, amount 7. -/
theorem c4_witness :
    bandEntries ⟨.num ((2 : ℕ) : ℚ), 7⟩ = List.replicate 2 7 :=
  c4_expand_bands.2.1 2 7 (by norm_num)

/-! ### Claim C10: expansion on malformed input

The pure `expandBands`/`expandRLE` above live on well-shaped elements.
The loops of the source, however, can throw: `expandBands` reads
`step.months` on each element, so a null/undefined array element throws
a TypeError, and `expandRLE` destructures each element as
`([count, val]) => ...`, so a non-iterable entry (a number, a plain
object) throws.  The raw expanders below model the loops over arbitrary
element shapes, with `Except` carrying the thrown error. -/

/-- A thrown interpreter error (TypeError). -/
inductive JsError where
  | typeError
deriving DecidableEq, Repr

/-- An element of a raw `bands` array: a proper object (property reads
succeed) or a nullish value (null/undefined), on which the loop body's
`step.months` read throws. -/
inductive BandElem where
  | obj (b : Band)
  | nullish
deriving DecidableEq, Repr

/-- An element of a raw `rle` array: an array destructurable to
`[count, val]`, or a non-iterable value on which the parameter
destructuring throws. -/
inductive RleElem where
  | pair (count val : ℚ)
  | nonIterable
deriving DecidableEq, Repr

/-- The `expandBands` loop over raw elements: left to right, a nullish
element throws, an object contributes its `bandEntries`. -/
def expandBandsRawGo : List BandElem → Except JsError (List ℚ)
  | [] => .ok []
  | .nullish :: _ => .error .typeError
  | .obj b :: rest => (expandBandsRawGo rest).map (fun out => bandEntries b ++ out)

/-- `expandBands(bands)` over raw elements (`bands || []` as `Option`). -/
def expandBandsRaw (bands : Option (List BandElem)) : Except JsError (List ℚ) :=
  expandBandsRawGo (bands.getD [])

/-- The `expandRLE` forEach over raw elements: a non-iterable entry
throws, a pair contributes its `rleEntries`. -/
def expandRLERawGo : List RleElem → Except JsError (List ℚ)
  | [] => .ok []
  | .nonIterable :: _ => .error .typeError
  | .pair c v :: rest => (expandRLERawGo rest).map (fun out => rleEntries (c, v) ++ out)

/-- `expandRLE(rle)` over raw elements (`rle || []` as `Option`). -/
def expandRLERaw (rle : Option (List RleElem)) : Except JsError (List ℚ) :=
  expandRLERawGo (rle.getD [])

/-- Claim C10 counterexample: expansion does fail on malformed element
shapes - a bands array holding one null element throws in `expandBands`
(the `step.months` read), and an RLE array holding one non-iterable
entry throws in `expandRLE` (the `[count, val]` destructuring), so
"expansion never fails for any input shape" is false of the code. -/
theorem c10_counterexample :
    expandBandsRaw (some [BandElem.nullish]) = .error JsError.typeError ∧
      expandRLERaw (some [RleElem.nonIterable]) = .error JsError.typeError :=
  ⟨rfl, rfl⟩

/-- Claim C10 (amended: totality holds per well-shaped element, not for
every input shape): a band whose months field does not coerce to a
positive number and is not the final sentinel contributes zero entries,
an RLE pair with a zero or negative count contributes zero entries, a
null/undefined band or RLE list expands to the empty sequence (also in
the raw model), and on lists of well-shaped elements the raw loops never
throw and agree with the pure expanders. -/
theorem c10_expanders_total :
    (∀ b : Band, ¬ 0 < monthsNumber b.months → b.months ≠ MonthsField.final →
      bandEntries b = []) ∧
    (∀ cnt v : ℚ, cnt ≤ 0 → rleEntries (cnt, v) = []) ∧
    expandBands none = [] ∧ expandRLE none = [] ∧
    expandBandsRaw none = .ok [] ∧ expandRLERaw none = .ok [] ∧
    (∀ bs : List Band,
      expandBandsRaw (some (bs.map BandElem.obj)) = .ok (expandBands (some bs))) ∧
    (∀ ps : List (ℚ × ℚ),
      expandRLERaw (some (ps.map fun p => RleElem.pair p.1 p.2))
        = .ok (expandRLE (some ps))) := by
  refine ⟨?_, ?_, rfl, rfl, rfl, rfl, ?_, ?_⟩
  · intro b hpos hfin
    rw [bandEntries, if_neg hfin, jsLoopCount, if_pos (not_lt.mp hpos),
      List.replicate_zero]
  · intro cnt v hcnt
    simp [rleEntries, jsLoopCount, hcnt]
  · intro bs
    induction bs with
    | nil => rfl
    | cons b t ih =>
      simp only [List.map_cons, expandBandsRaw, Option.getD_some,
        expandBandsRawGo] at ih ⊢
      rw [ih]
      simp [expandBands, Except.map]
  · intro ps
    induction ps with
    | nil => rfl
    | cons p t ih =>
      simp only [List.map_cons, expandRLERaw, Option.getD_some,
        expandRLERawGo] at ih ⊢
      rw [ih]
      simp [expandRLE, Except.map]

/-- Witness for C10: a junk-months band and a negative-count RLE pair
contribute nothing. -/
theorem c10_witness :
    bandEntries ⟨.junk, 5⟩ = [] ∧ rleEntries (-3, 8) = [] :=
  ⟨c10_expanders_total.1 ⟨.junk, 5⟩ (by norm_num [monthsNumber]) (by simp),
    c10_expanders_total.2.1 (-3) 8 (by norm_num)⟩

/-! ### Claim C5: the fallback per-month amount -/

/-- The C5 counterexample bands: the nearest preceding numeric-months
band carries amount 0. -/
def zeroAmountBands : List Band := [⟨.num 2, 0⟩, ⟨.final, 100⟩]

/-- Claim C5 counterexample: in `[{months:2, amount:0}, {final}]` the
nearest preceding numeric-months band is `{months:2, amount:0}` with
amount 0, yet the fallback is 25, not 0 - the code computes
`Number(amount) || 25`, so a zero amount also falls back to `25`. -/
theorem c5_counterexample :
    zeroAmountBands.dropLast.reverse.find? (fun b => b.months.isNumericType)
        = some ⟨.num 2, 0⟩ ∧
      (⟨.num 2, 0⟩ : Band).amount = 0 ∧
      fallbackFrom zeroAmountBands = 25 ∧ (25 : ℚ) ≠ 0 :=
  ⟨rfl, rfl, rfl, by norm_num⟩

theorem find?_eq_of_suffix_fail {α : Type} (p : α → Bool) (pre : List α)
    (b : α) (post : List α) (hb : p b = true)
    (hpost : ∀ u ∈ post, p u = false) :
    (pre ++ b :: post).reverse.find? p = some b := by
  rw [List.reverse_append, List.reverse_cons, List.append_assoc,
    List.singleton_append, List.find?_append]
  have hnone : post.reverse.find? p = none := by
    rw [List.find?_eq_none]
    intro x hx
    rw [hpost x (List.mem_reverse.mp hx)]
    simp
  rw [hnone, Option.none_or, List.find?_cons_of_pos _ hb]

/-- Claim C5 (amended: the code reads `Number(amount) || 25`, so the
fallback equals the nearest preceding numeric-months band's amount only
when that amount is nonzero, and is the constant 25 when that amount is
zero or when no numeric-months band precedes the sentinel). -/
theorem c5_fallback :
    ∀ (bs : List Band) (bl : Band), bs.getLast? = some bl →
      bl.months = MonthsField.final →
      (∀ (pre : List Band) (b : Band) (post : List Band),
        bs.dropLast = pre ++ b :: post → b.months.isNumericType = true →
        (∀ u ∈ post, u.months.isNumericType = false) →
        fallbackFrom bs = if b.amount = 0 then 25 else b.amount) ∧
      ((∀ u ∈ bs.dropLast, u.months.isNumericType = false) →
        fallbackFrom bs = 25) := by
  intro bs bl _ _
  constructor
  · intro pre b post hsplit hb hpost
    rw [fallbackFrom, hsplit,
      find?_eq_of_suffix_fail (fun u => u.months.isNumericType) pre b post hb hpost]
  · intro hall
    have hnone : bs.dropLast.reverse.find? (fun u => u.months.isNumericType)
        = none := by
      rw [List.find?_eq_none]
      intro x hx
      rw [hall x (List.mem_reverse.mp hx)]
      simp
    rw [fallbackFrom, hnone]

/-- Witness for the amended C5: a nonzero nearest numeric band sources
the fallback. -/
theorem c5_witness :
    fallbackFrom [⟨.num 2, 50⟩, ⟨.final, 10⟩]
      = if (50 : ℚ) = 0 then 25 else 50 :=
  (c5_fallback [⟨.num 2, 50⟩, ⟨.final, 10⟩] ⟨.final, 10⟩ rfl rfl).1
    [] ⟨.num 2, 50⟩ [] rfl rfl (by simp)

/-! ### Claim C2: range selection -/

theorem findIdx?_decomp {α : Type} (p : α → Bool) :
    ∀ (l : List α) (i j : ℕ),
      l.findIdx? p i = some j ↔
        ∃ pre b post, l = pre ++ b :: post ∧ j = i + pre.length ∧
          p b = true ∧ ∀ u ∈ pre, p u = false := by
  intro l
  induction l with
  | nil =>
    intro i j
    constructor
    · intro h
      rw [List.findIdx?_nil] at h
      exact Option.noConfusion h
    · rintro ⟨pre, b, post, h, -, -, -⟩
      exact absurd h.symm (by simp)
  | cons x xs ih =>
    intro i j
    rw [List.findIdx?_cons]
    by_cases hx : p x = true
    · rw [if_pos hx]
      constructor
      · intro h
        have hij : i = j := by injection h
        exact ⟨[], x, xs, rfl, by simp [hij], hx, by simp⟩
      · rintro ⟨pre, b, post, hsplit, hj, hb, hpre⟩
        cases pre with
        | nil =>
          have hxb : x = b := by injection hsplit
          rw [hj]
          simp [hxb]
        | cons y pre2 =>
          have hxy : x = y := by injection hsplit
          have hfail : p y = false := hpre y (by simp)
          rw [← hxy, hx] at hfail
          exact Bool.noConfusion hfail
    · rw [if_neg hx]
      rw [ih (i + 1) j]
      constructor
      · rintro ⟨pre, b, post, hsplit, hj, hb, hpre⟩
        refine ⟨x :: pre, b, post, by rw [hsplit]; rfl, by simp [hj]; omega, hb, ?_⟩
        intro u hu
        rcases List.mem_cons.mp hu with rfl | hu2
        · exact Bool.not_eq_true _ ▸ (by simpa using hx)
        · exact hpre u hu2
      · rintro ⟨pre, b, post, hsplit, hj, hb, hpre⟩
        cases pre with
        | nil =>
          have hxb : x = b := by injection hsplit
          rw [← hxb] at hb
          exact absurd hb hx
        | cons y pre2 =>
          have hxy : x = y := by injection hsplit
          have htail : xs = pre2 ++ b :: post := by injection hsplit
          refine ⟨pre2, b, post, htail, by simp at hj ⊢; omega, hb,
            fun u hu => hpre u (List.mem_cons_of_mem _ hu)⟩

/-- The spec's example tiers `[{max:1250}, {min:1250, max:5000},
{min:5001}]`. -/
def exTiers : List Tab :=
  [ { blankTab with range := some ⟨none, some 1250⟩ },
    { blankTab with range := some ⟨some 1250, some 5000⟩ },
    { blankTab with range := some ⟨some 5001, none⟩ } ]

/-- Claim C2: tier selection returns the first tier in order whose
range contains the total, bounds inclusive with missing bounds treated
as minus/plus infinity (no constraint); when no tier matches, the open
flow reports the dedicated no-match outcome, distinct from the
load-failure outcome; and the three boundary examples select tiers
0, 1 and 2. -/
theorem c2_range_selection :
    (∀ (t : Tab) (total : ℚ),
      containsTotal t total = true ↔
        ((∀ lo, t.range.bind Range.min = some lo → lo ≤ total) ∧
          (∀ hi, t.range.bind Range.max = some hi → total ≤ hi))) ∧
    (∀ (tabs : List Tab) (total : ℚ) (j : ℕ),
      findTier tabs total = some j ↔
        ∃ pre t post, tabs = pre ++ t :: post ∧ j = pre.length ∧
          containsTotal t total = true ∧
          ∀ u ∈ pre, containsTotal u total = false) ∧
    (∀ (tabs : List Tab) (total : ℚ),
      findTier tabs total = none ↔ ∀ t ∈ tabs, containsTotal t total = false) ∧
    (∀ (total : ℚ) (rs : RuleSet), ¬ total ≤ 0 →
      (openFlow total (.ok rs) = .noMatch ↔ findTier rs.tabs total = none)) ∧
    (∀ (total : ℚ) (e : LoadError), ¬ total ≤ 0 →
      openFlow total (.error e) = .loadFailed) ∧
    OpenOutcome.noMatch ≠ OpenOutcome.loadFailed ∧
    findTier exTiers 1250 = some 0 ∧
    findTier exTiers (125001/100) = some 1 ∧
    findTier exTiers 6000 = some 2 := by
  refine ⟨?_, ?_, ?_, ?_, ?_, by simp, rfl, ?_, rfl⟩
  · intro t total
    cases hlo : t.range.bind Range.min <;> cases hhi : t.range.bind Range.max <;>
      simp [containsTotal, hlo, hhi, Option.all]
  · intro tabs total j
    rw [findTier, findIdx?_decomp]
    simp
  · intro tabs total
    rw [findTier, List.findIdx?_eq_none_iff]
  · intro total rs htot
    rw [openFlow, if_neg htot]
    cases h : findTier rs.tabs total <;> simp [h]
  · intro total e htot
    rw [openFlow, if_neg htot]
  · norm_num [findTier, exTiers, containsTotal, List.findIdx?_cons, blankTab,
      Option.all]

/-- Witness for C2: the no-match outcome on an empty rule set at
total 10. -/
theorem c2_witness : openFlow 10 (Except.ok ⟨[]⟩) = OpenOutcome.noMatch :=
  (c2_range_selection.2.2.2.1 10 ⟨[]⟩ (by norm_num)).mpr rfl

/-! ### Claim C6: legal template routing -/

theorem jsOrZ_zero (z : ℤ) : jsOrZ z 0 = z := by
  rw [jsOrZ]
  split <;> omega

/-- Claim C6: when the legal text is synthesized, the template is chosen
by which bounds are finite - both finite selects "between", only the
upper "single", only the lower "min" with displayed floor
`round(lowerBound) + 1`, neither yields empty; `{min:5001}` uses "min"
with floor 5002 and `{max:1250}` uses "single". -/
theorem c6_legal_routing :
    (∀ (u : Bool) (tab : Tab), ¬ (u = false ∧ tab.legal ≠ "") →
      (∀ mn mx, tab.range.bind Range.min = some mn →
        tab.range.bind Range.max = some mx →
        buildLegalFromTab u tab = .between mn mx) ∧
      (∀ mx, tab.range.bind Range.min = none →
        tab.range.bind Range.max = some mx →
        buildLegalFromTab u tab = .single mx) ∧
      (∀ mn, tab.range.bind Range.min = some mn →
        tab.range.bind Range.max = none →
        buildLegalFromTab u tab = .minMore (round mn + 1)) ∧
      (tab.range.bind Range.min = none → tab.range.bind Range.max = none →
        buildLegalFromTab u tab = .empty)) ∧
    buildLegalFromTab true { blankTab with range := some ⟨some 5001, none⟩ }
      = .minMore 5002 ∧
    buildLegalFromTab true { blankTab with range := some ⟨none, some 1250⟩ }
      = .single 1250 := by
  refine ⟨?_, ?_, rfl⟩
  · intro u tab hsyn
    refine ⟨?_, ?_, ?_, ?_⟩
    · intro mn mx hmn hmx
      rw [buildLegalFromTab, if_neg hsyn, hmn, hmx]
    · intro mx hmn hmx
      rw [buildLegalFromTab, if_neg hsyn, hmn, hmx]
    · intro mn hmn hmx
      rw [buildLegalFromTab, if_neg hsyn, hmn, hmx]
      show LegalOut.minMore (jsOrZ (round mn) 0 + 1) = LegalOut.minMore (round mn + 1)
      rw [jsOrZ_zero]
    · intro hmn hmx
      rw [buildLegalFromTab, if_neg hsyn, hmn, hmx]
  · norm_num [buildLegalFromTab, blankTab, jsOrZ]

/-- Witness for C6: the "between" dispatch at bounds 7 and 9. -/
theorem c6_witness :
    buildLegalFromTab true { blankTab with range := some ⟨some 7, some 9⟩ }
      = LegalOut.between 7 9 :=
  (c6_legal_routing.1 true _ (by simp)).1 7 9 rfl rfl

/-! ### Claim C7: pass-through legal text -/

/-- Claim C7: with the override flag off, a tier carrying non-empty
pass-through legal text makes the builder return that text - the
normalizer's `[[...]]`-expanded `legal_lines` - verbatim, never a
synthesized template; and the expansion wraps each double-bracketed
substring in the emphasis span, leaving marker-free text unchanged. -/
theorem c7_passthrough_legal :
    (∀ (d : PerTierDoc) (idx : ℕ),
      (normalizeTab false idx d).legal
          = formatLegalText (joinLegalLines d.legal_lines) ∧
      ((normalizeTab false idx d).legal ≠ "" →
        buildLegalFromTab false (normalizeTab false idx d)
          = .passthrough (formatLegalText (joinLegalLines d.legal_lines)))) ∧
    formatLegalText "a [[b]] c" = "a " ++ spanOpen ++ "b" ++ spanClose ++ " c" ∧
    formatLegalText "no markers" = "no markers" := by
  refine ⟨?_, rfl, rfl⟩
  intro d idx
  have h1 : (normalizeTab false idx d).legal
      = formatLegalText (joinLegalLines d.legal_lines) := by
    simp [normalizeTab]
  exact ⟨h1, fun hne => by rw [buildLegalFromTab, if_pos ⟨rfl, hne⟩, h1]⟩

/-- A concrete per-tier document carrying pass-through legal text. -/
def exLegalDoc : PerTierDoc :=
  { id := none, range := none, min := none, max := none, bands := none
    legal_lines := .str "Pay [[now]] fast", apr_nominal := none
    apr_representative := none, open_fee_monthly := none, valid_date := none }

/-- Witness for C7: the pass-through branch at a concrete document. -/
theorem c7_witness :
    buildLegalFromTab false (normalizeTab false 0 exLegalDoc)
      = LegalOut.passthrough (formatLegalText (joinLegalLines exLegalDoc.legal_lines)) :=
  (c7_passthrough_legal.1 exLegalDoc 0).2 (by decide)

/-! ### Claim C8: the legacy columns path -/

/-- In a purchase-sorted column list, the first column found with a
non-negative threshold has the least threshold among all non-negative
ones. -/
theorem find?_sorted_min :
    ∀ (l : List Column), l.Sorted colLE →
      ∀ c0, l.find? (fun c => 0 ≤ c.purchase) = some c0 →
        ∀ c ∈ l, 0 ≤ c.purchase → c0.purchase ≤ c.purchase := by
  intro l
  induction l with
  | nil =>
    intro _ c0 h
    rw [List.find?_nil] at h
    exact Option.noConfusion h
  | cons x xs ih =>
    intro hs c0 h c hc hcpos
    rw [List.sorted_cons] at hs
    by_cases hx : (0 : ℚ) ≤ x.purchase
    · rw [List.find?_cons_of_pos _ (by simpa using hx)] at h
      have hx0 : x = c0 := by injection h
      rcases List.mem_cons.mp hc with rfl | hc2
      · rw [← hx0]
      · rw [← hx0]
        exact hs.1 c hc2
    · rw [List.find?_cons_of_neg _ (by simpa using hx)] at h
      rcases List.mem_cons.mp hc with rfl | hc2
      · exact absurd hcpos hx
      · exact ih hs.2 c0 h c hc2 hcpos

/-- When some column has a non-negative threshold, `find?` over the
sorted copy succeeds. -/
theorem find?_sorted_isSome {l : List Column} {c : Column}
    (hmem : c ∈ l) (hpos : 0 ≤ c.purchase) :
    ∃ c0, (l.insertionSort colLE).find? (fun c => 0 ≤ c.purchase) = some c0 := by
  cases h : (l.insertionSort colLE).find? (fun c => 0 ≤ c.purchase) with
  | some c0 => exact ⟨c0, rfl⟩
  | none =>
    rw [List.find?_eq_none] at h
    have hcmem : c ∈ l.insertionSort colLE := (List.mem_insertionSort colLE).mpr hmem
    exact absurd (by simpa using hpos) (h c hcmem)

/-- Claim C8: with no bands and a non-empty columns list the schedule is
the RLE expansion of the picked column, the pick does not depend on the
total, the picked column has the smallest non-negative purchase
threshold when one exists and is the last column of the sorted list
otherwise, and `expandRLE [[3,25],[1,12.5]] = [25,25,25,12.5]`. -/
theorem c8_columns_path :
    (∀ (tab : Tab) (cols : List Column) (total total2 : ℚ),
      tab.columns = some cols → cols ≠ [] → hasBands tab = false →
      scheduleOf tab total = scheduleOf tab total2 ∧
      ∃ chosen, pickColumn tab = some chosen ∧
        scheduleOf tab total = expandRLE chosen.rle ∧
        ((∃ c ∈ cols, 0 ≤ c.purchase) →
          chosen ∈ cols ∧ 0 ≤ chosen.purchase ∧
            ∀ c ∈ cols, 0 ≤ c.purchase → chosen.purchase ≤ c.purchase) ∧
        ((∀ c ∈ cols, ¬ 0 ≤ c.purchase) →
          (cols.insertionSort colLE).getLast? = some chosen)) ∧
    expandRLE (some [(3, 25), (1, 25/2)]) = [25, 25, 25, 25/2] := by
  refine ⟨?_, rfl⟩
  intro tab cols total total2 hc hne hb
  have hfin : hasFinal tab = false := by
    rw [hasBands] at hb
    rw [hasFinal]
    cases htb : tab.bands with
    | none => rfl
    | some bs =>
      rw [htb] at hb
      simp only [Bool.not_eq_true'] at hb
      simp [hb]
  have hsched : ∀ t : ℚ, scheduleOf tab t = baseSchedule tab := by
    intro t
    rw [scheduleOf]
    exact if_neg (fun hcon => by rw [hfin] at hcon; exact Bool.noConfusion hcon.1)
  have hsort_ne : cols.insertionSort colLE ≠ [] := by
    intro h0
    have hlen := List.length_insertionSort colLE cols
    rw [h0] at hlen
    exact hne (List.length_eq_zero.mp hlen.symm)
  have hpick : pickColumn tab
      = match (cols.insertionSort colLE).find? (fun c => 0 ≤ c.purchase) with
        | some c => some c
        | none => (cols.insertionSort colLE).getLast? := by
    simp only [pickColumn, hc, Option.getD_some]
  have hbb : ∀ ch, pickColumn tab = some ch →
      baseSchedule tab = expandRLE ch.rle := by
    intro ch hch
    have h1 : hasBands tab ≠ true := by simp [hb]
    have h2 : cols.isEmpty ≠ true := by simp [List.isEmpty_iff, hne]
    rw [baseSchedule, if_neg h1, hc]
    show (if cols.isEmpty = true then [] else
      match pickColumn tab with
      | some c => expandRLE c.rle
      | none => []) = expandRLE ch.rle
    rw [if_neg h2, hch]
  have hex : ∃ ch, pickColumn tab = some ch := by
    rw [hpick]
    cases hfind : (cols.insertionSort colLE).find? (fun c => 0 ≤ c.purchase) with
    | some c => exact ⟨c, rfl⟩
    | none =>
      cases hlast : (cols.insertionSort colLE).getLast? with
      | some c => exact ⟨c, rfl⟩
      | none => exact absurd (List.getLast?_eq_none_iff.mp hlast) hsort_ne
  obtain ⟨chosen, hch⟩ := hex
  refine ⟨by rw [hsched total, hsched total2], chosen, hch,
    by rw [hsched total, hbb chosen hch], ?_, ?_⟩
  · rintro ⟨c, hcmem, hcpos⟩
    obtain ⟨c0, hfind⟩ := find?_sorted_isSome hcmem hcpos
    rw [hpick, hfind] at hch
    have hch2 : some c0 = some chosen := hch
    have hc0 : c0 = chosen := by injection hch2
    subst hc0
    refine ⟨(List.mem_insertionSort colLE).mp (List.mem_of_find?_eq_some hfind),
      by simpa using List.find?_some hfind, ?_⟩
    intro c2 hc2 hc2pos
    exact find?_sorted_min (cols.insertionSort colLE)
      (List.sorted_insertionSort colLE cols) c0 hfind c2
      ((List.mem_insertionSort colLE).mpr hc2) hc2pos
  · intro hallneg
    have hnone : (cols.insertionSort colLE).find? (fun c => 0 ≤ c.purchase)
        = none := by
      rw [List.find?_eq_none]
      intro x hx
      simpa using hallneg x ((List.mem_insertionSort colLE).mp hx)
    rw [hpick, hnone] at hch
    exact hch

/-- Witness for C8: a two-column legacy tier yields the same schedule
for two different totals. -/
theorem c8_witness :
    scheduleOf
        { blankTab with
          columns := some [⟨-1, some [(1, 3)]⟩, ⟨0, some [(2, 4)]⟩] } 7
      = scheduleOf
        { blankTab with
          columns := some [⟨-1, some [(1, 3)]⟩, ⟨0, some [(2, 4)]⟩] } 9000 :=
  (c8_columns_path.1
      { blankTab with columns := some [⟨-1, some [(1, 3)]⟩, ⟨0, some [(2, 4)]⟩] }
      [⟨-1, some [(1, 3)]⟩, ⟨0, some [(2, 4)]⟩] 7 9000 rfl (by simp) rfl).1


/-! ### Claim C3: the loader/normalizer -/

/-- Claim C3: when at least one per-tier document is obtained, the rule
set holds exactly one tier per obtained document - a permutation of the
normalizations of the obtained documents, sorted ascending by the
lower-bound key (`range.min ?? 0`) - and the legacy outcome is never
consulted; when zero are obtained, the legacy outcome is returned as is,
so its load error propagates and its `tabs` are used verbatim. -/
theorem c3_loader :
    ∀ (u : Bool) (fetched : List (Option PerTierDoc))
      (legacy : Except LoadError RuleSet),
      (fetched.reduceOption ≠ [] →
        (∀ legacy2, loadNewRulesOrLegacy u fetched legacy
            = loadNewRulesOrLegacy u fetched legacy2) ∧
        ∃ ts : List Tab,
          loadNewRulesOrLegacy u fetched legacy = .ok ⟨ts⟩ ∧
          ts.length = fetched.reduceOption.length ∧
          ts.Perm (fetched.reduceOption.mapIdx
            fun idx d => normalizeTab u idx d) ∧
          ts.Sorted tabLE) ∧
      (fetched.reduceOption = [] →
        loadNewRulesOrLegacy u fetched legacy = legacy) := by
  intro u fetched legacy
  constructor
  · intro hne
    have hcond : 1 ≤ fetched.reduceOption.length := by
      cases h : fetched.reduceOption with
      | nil => exact absurd h hne
      | cons a l => simp [h]
    constructor
    · intro legacy2
      rw [loadNewRulesOrLegacy, loadNewRulesOrLegacy, if_pos hcond, if_pos hcond]
    · refine ⟨_, by rw [loadNewRulesOrLegacy, if_pos hcond], ?_, ?_, ?_⟩
      · rw [List.length_insertionSort, List.length_mapIdx]
      · exact List.perm_insertionSort tabLE _
      · exact List.sorted_insertionSort tabLE _
  · intro hz
    rw [loadNewRulesOrLegacy, if_neg (by rw [hz]; simp)]

/-- Witness for C3: three failed per-tier fetches propagate the legacy
parse error. -/
theorem c3_witness :
    loadNewRulesOrLegacy true [none, none, none] (Except.error LoadError.parse)
      = Except.error LoadError.parse :=
  (c3_loader true [none, none, none] (Except.error LoadError.parse)).2 rfl

end SantanderCalc
